import Mathlib

/-!
Verification of the round-robin reverse-proxy load balancer (main.go).

The embedding models the `Server` interface as a record carrying the two
observable values the selection algorithm can ask for (its address and the
boolean its `IsAlive` method returns), the `LoadBalancer` struct verbatim,
and `getNextAvailableServer` as a fuel-indexed function: the Go `for` loop
has no bound, so the fuel counts how many candidate slots the loop may
examine, `diverge` marking fuel exhaustion (the loop still spinning) and
`panic` marking a runtime indexing/division failure (empty slice).
-/

/-- The `Server` interface of main.go, seen through the two observations the
load balancer makes of a server: `Address()` and `IsAlive()`. -/
structure Server where
  addr : String
  alive : Bool
deriving DecidableEq

/-- Method `Address()` of a server. -/
def Server.Address (s : Server) : String := s.addr

/-- Method `IsAlive()` of a server. -/
def Server.IsAlive (s : Server) : Bool := s.alive

/-- The concrete `simpleServer` struct: it stores the address string (the
reverse proxy handle is the external forwarding collaborator and carries no
state the core reads). -/
structure simpleServer where
  addr : String
deriving DecidableEq

/-- Method `simpleServer.Address` returns the stored address. -/
def simpleServer.Address (s : simpleServer) : String := s.addr

/-- Method `simpleServer.IsAlive` returns the constant `true` (main.go line 30). -/
def simpleServer.IsAlive (_ : simpleServer) : Bool := true

/-- A `simpleServer` viewed through the `Server` interface: its `IsAlive`
method answers `true`. -/
def simpleServer.asServer (s : simpleServer) : Server :=
  { addr := s.addr, alive := s.IsAlive }

/-- Outcome of a startup-time construction step: either a value, or the
process printed a message and exited with the given status code
(`handleErr`'s `os.Exit(1)` path). -/
inductive StartupResult (α : Type) where
  | ok (a : α)
  | exited (code : Nat) (msg : String)
deriving DecidableEq

/-- Function `handleErr` of main.go: on a non-nil error it prints `error: ...` and
exits the process with status 1; on nil it does nothing. The error value of
`url.Parse` is passed in as `Option String` (`none` = nil). -/
def handleErr (err : Option String) : StartupResult Unit :=
  match err with
  | some e => .exited 1 ("error: " ++ e)
  | none => .ok ()

/-- Function `newSimpleServer` of main.go: parse the address, hand the error to
`handleErr` (which exits the process on failure), then build the struct.
The result of `url.Parse` is abstracted as the error it returns
(`none` = parse succeeded), since `url.Parse` is library code. -/
def newSimpleServer (addr : String) (parseErr : Option String) : StartupResult simpleServer :=
  match handleErr parseErr with
  | .exited c m => .exited c m
  | .ok () => .ok { addr := addr }

/-- The `LoadBalancer` struct of main.go. -/
structure LoadBalancer where
  port : String
  roundRobinCount : Nat
  servers : List Server
deriving DecidableEq

/-- Function `NewLoadBalancer` of main.go: stores the port and server list, cursor 0. -/
def NewLoadBalancer (port : String) (servers : List Server) : LoadBalancer :=
  { port := port, roundRobinCount := 0, servers := servers }

/-- Outcome of the skip loop of `getNextAvailableServer`: the cursor value
whose candidate is live, fuel exhaustion (the unbounded loop still
spinning), or a runtime panic (indexing an empty slice / `% 0`). -/
inductive LoopResult where
  | found (c : Nat)
  | fuelOut
  | panic
deriving DecidableEq

/-- The skip loop of `getNextAvailableServer` (main.go lines 74-78): look at
the candidate `servers[cursor % len(servers)]`; while it is not alive,
increment the cursor and look again. Returns the cursor value at which a
live candidate sits. On an empty slice the lookup fails (`panic`, as Go's
`% 0` / index panic would). -/
def findLive (servers : List Server) (cursor : Nat) : Nat → LoopResult
  | 0 => .fuelOut
  | fuel + 1 =>
    match servers.get? (cursor % servers.length) with
    | none => .panic
    | some s => if s.IsAlive then .found cursor else findLive servers (cursor + 1) fuel

/-- Outcome of one call to `getNextAvailableServer`. -/
inductive SelectResult where
  | ok (t : Server) (lb : LoadBalancer)
  | diverge
  | panic
deriving DecidableEq

/-- Method `getNextAvailableServer` of main.go (lines 71-84): run the skip loop
from the current cursor; once a live candidate is found, increment the
cursor one more time and return the candidate together with the updated
balancer. -/
def getNextAvailableServer (lb : LoadBalancer) (fuel : Nat) : SelectResult :=
  match findLive lb.servers lb.roundRobinCount fuel with
  | .found c =>
    match lb.servers.get? (c % lb.servers.length) with
    | some s => .ok s { lb with roundRobinCount := c + 1 }
    | none => .panic
  | .fuelOut => .diverge
  | .panic => .panic

/-- A sequence of `m` successive calls to `getNextAvailableServer`,
threading the balancer state; `none` when some call diverged or panicked.
Returns the list of chosen servers and the final state. -/
def runCalls (lb : LoadBalancer) (fuel : Nat) : Nat → Option (List Server × LoadBalancer)
  | 0 => some ([], lb)
  | m + 1 =>
    match getNextAvailableServer lb fuel with
    | .ok t lb' => (runCalls lb' fuel m).map (fun r => (t :: r.1, r.2))
    | _ => none

/-- The balancer state after `m` successive calls (none if a call failed). -/
def stateAfter (lb : LoadBalancer) (fuel : Nat) : Nat → Option LoadBalancer
  | 0 => some lb
  | m + 1 =>
    match stateAfter lb fuel m with
    | some lb' =>
      match getNextAvailableServer lb' fuel with
      | .ok _ lb'' => some lb''
      | _ => none
    | none => none

/-- The selection algorithm exactly as the spec words it (section 4.2),
step 2 as a fueled loop: "While the candidate Target's isAlive() is false:
increment cursor, recompute candidate index, repeat." Returns the cursor
at which the live candidate sits. (The spec does not consider an empty
pool; the out-of-range default is a dead placeholder, irrelevant once the
pool is non-empty.) -/
def specScan (servers : List Server) (cursor : Nat) : Nat → Option Nat
  | 0 => none
  | fuel + 1 =>
    if (servers.getD (cursor % servers.length) { addr := "", alive := false }).IsAlive
    then some cursor
    else specScan servers (cursor + 1) fuel

/-- The full spec algorithm (section 4.2): step 1 computes the candidate
index `cursor mod poolSize`, step 2 scans while not alive, step 3
increments the cursor by one more and returns that candidate; the result
is the chosen server together with the new cursor value. -/
def specSelect (servers : List Server) (cursor fuel : Nat) : Option (Server × Nat) :=
  (specScan servers cursor fuel).map
    (fun c => (servers.getD (c % servers.length) { addr := "", alive := false }, c + 1))

/-- An observable action of `serveProxy`: asking the pool for a server, or
forwarding the request to a server (with the outcome the forwarding
primitive reported). -/
inductive Event where
  | selected (t : Server)
  | forwarded (t : Server) (outcome : Bool)
deriving DecidableEq

/-- Whether an event is a selection. -/
def Event.isSelection : Event → Bool
  | .selected _ => true
  | .forwarded _ _ => false

/-- Whether an event is a forward. -/
def Event.isForward : Event → Bool
  | .selected _ => false
  | .forwarded _ _ => true

/-- Method `serveProxy` of main.go (lines 87-96): call `getNextAvailableServer`
once, then call `Serve` on the returned server once; whatever the
forwarding outcome (`forwardOutcome`), nothing else happens — no retry, no
second selection, no state change beyond the cursor increment inside the
selection. The returned trace lists the observable actions in order. -/
def serveProxy (lb : LoadBalancer) (fuel : Nat) (forwardOutcome : Bool) :
    Option (List Event × LoadBalancer) :=
  match getNextAvailableServer lb fuel with
  | .ok t lb' => some ([Event.selected t, Event.forwarded t forwardOutcome], lb')
  | _ => none

/-- The server-construction part of `main` (main.go lines 101-109): build
the backend slice by calling `newSimpleServer` on each configured address
in order; the first parse failure exits the process (through `handleErr`)
before any later address is handled and before any request is served. -/
def buildServers : List (String × Option String) → StartupResult (List simpleServer)
  | [] => .ok []
  | e :: rest =>
    match newSimpleServer e.1 e.2 with
    | .exited c m => .exited c m
    | .ok s =>
      match buildServers rest with
      | .ok ss => .ok (s :: ss)
      | .exited c m => .exited c m

/-- Position of the slot returned by the `t`-th call when exactly the slot
`d` of the pool is dead: the alive slots in increasing order are
`0, ..., d-1, d+1, ..., n-1`, and `skipIdx d j` is the `j`-th of them. -/
def skipIdx (d j : Nat) : Nat :=
  if j < d then j else j + 1

/-- The pool entry a cursor value denotes: `servers[cursor % len(servers)]`
(total, with a dead placeholder for the empty pool). -/
def slot (servers : List Server) (i : Nat) : Server :=
  servers.getD (i % servers.length) { addr := "", alive := false }

lemma slot_get? {servers : List Server} (h : servers ≠ []) (i : Nat) :
    servers.get? (i % servers.length) = some (slot servers i) := by
  have hn : 0 < servers.length := List.length_pos.mpr h
  have hm : i % servers.length < servers.length := Nat.mod_lt _ hn
  rw [List.get?_eq_get hm]
  unfold slot
  rw [List.getD_eq_getElem?_getD, List.getElem?_eq_getElem hm]
  rfl

lemma slot_mem {servers : List Server} (h : servers ≠ []) (i : Nat) :
    slot servers i ∈ servers := by
  have := slot_get? h i
  exact List.get?_mem this

lemma slot_get {servers : List Server} (i : Nat)
    (h : i % servers.length < servers.length) :
    slot servers i = servers.get ⟨i % servers.length, h⟩ := by
  unfold slot
  rw [List.getD_eq_getElem?_getD, List.getElem?_eq_getElem h]
  rfl

lemma slot_mod {servers : List Server} (i : Nat) :
    slot servers (i % servers.length) = slot servers i := by
  unfold slot
  rw [Nat.mod_mod_of_dvd i dvd_rfl]

/-- What a `found` answer of the skip loop means: the found cursor is the
first value at or after the starting cursor whose candidate slot is alive,
and it was reached within `fuel` steps. -/
lemma findLive_found {servers : List Server} {c fuel c' : Nat}
    (h : findLive servers c fuel = .found c') :
    c ≤ c' ∧ c' < c + fuel ∧ (slot servers c').IsAlive = true ∧
      ∀ j, c ≤ j → j < c' → (slot servers j).IsAlive = false := by
  induction fuel generalizing c with
  | zero => simp [findLive] at h
  | succ fuel ih =>
    have hne : servers ≠ [] := by
      rintro rfl
      simp [findLive] at h
    rw [findLive, slot_get? hne c] at h
    have h' : (if (slot servers c).IsAlive = true then LoopResult.found c
        else findLive servers (c + 1) fuel) = .found c' := h
    by_cases ha : (slot servers c).IsAlive = true
    · rw [if_pos ha] at h'
      cases h'
      refine ⟨Nat.le_refl _, by omega, ha, ?_⟩
      intro j hj hj'
      omega
    · rw [if_neg ha] at h'
      obtain ⟨h1, h2, h3, h4⟩ := ih h'
      refine ⟨by omega, by omega, h3, ?_⟩
      intro j hj hj'
      rcases Nat.eq_or_lt_of_le hj with he | hlt
      · subst he
        simpa using ha
      · exact h4 j hlt hj'

/-- Completeness of the skip loop: if some cursor within the fuel window
has a live candidate, the loop answers `found`. -/
lemma findLive_complete {servers : List Server} {c k fuel : Nat}
    (hk : k < fuel) (ha : (slot servers (c + k)).IsAlive = true)
    (hne : servers ≠ []) :
    ∃ c', findLive servers c fuel = .found c' := by
  induction k generalizing c fuel with
  | zero =>
    obtain ⟨f, rfl⟩ : ∃ f, fuel = f + 1 := ⟨fuel - 1, by omega⟩
    refine ⟨c, ?_⟩
    rw [findLive, slot_get? hne c]
    show (if (slot servers c).IsAlive = true then LoopResult.found c
        else findLive servers (c + 1) f) = .found c
    rw [if_pos (by simpa using ha)]
  | succ k ih =>
    obtain ⟨f, rfl⟩ : ∃ f, fuel = f + 1 := ⟨fuel - 1, by omega⟩
    by_cases hl : (slot servers c).IsAlive = true
    · refine ⟨c, ?_⟩
      rw [findLive, slot_get? hne c]
      show (if (slot servers c).IsAlive = true then LoopResult.found c
          else findLive servers (c + 1) f) = .found c
      rw [if_pos hl]
    · obtain ⟨c', hc'⟩ := @ih (c + 1) f (by omega)
        (by rw [show c + 1 + k = c + (k + 1) by omega]; exact ha)
      refine ⟨c', ?_⟩
      rw [findLive, slot_get? hne c]
      show (if (slot servers c).IsAlive = true then LoopResult.found c
          else findLive servers (c + 1) f) = .found c'
      rw [if_neg hl]
      exact hc'

/-- The skip loop never panics on a non-empty pool. -/
lemma findLive_no_panic {servers : List Server} (hne : servers ≠ [])
    (c fuel : Nat) : findLive servers c fuel ≠ .panic := by
  induction fuel generalizing c with
  | zero => simp [findLive]
  | succ fuel ih =>
    rw [findLive, slot_get? hne c]
    show (if (slot servers c).IsAlive = true then LoopResult.found c
        else findLive servers (c + 1) fuel) ≠ .panic
    by_cases hl : (slot servers c).IsAlive = true
    · rw [if_pos hl]; simp
    · rw [if_neg hl]; exact ih (c + 1)

/-- What a successful call to `getNextAvailableServer` means: the skip
loop found a cursor `c`, the returned server is the slot at `c`, and the
new state is the old one with the cursor bumped to `c + 1`. -/
lemma getNext_ok {lb : LoadBalancer} {fuel : Nat} {t : Server} {lb' : LoadBalancer}
    (h : getNextAvailableServer lb fuel = .ok t lb') :
    lb.servers ≠ [] ∧ ∃ c, findLive lb.servers lb.roundRobinCount fuel = .found c ∧
      t = slot lb.servers c ∧
      lb' = { lb with roundRobinCount := c + 1 } := by
  unfold getNextAvailableServer at h
  cases hf : findLive lb.servers lb.roundRobinCount fuel with
  | found c =>
    rw [hf] at h
    have h1 : (match lb.servers.get? (c % lb.servers.length) with
        | some s => SelectResult.ok s { lb with roundRobinCount := c + 1 }
        | none => SelectResult.panic) = SelectResult.ok t lb' := h
    cases hg : lb.servers.get? (c % lb.servers.length) with
    | none =>
      rw [hg] at h1
      exact absurd h1 (by simp)
    | some s =>
      rw [hg] at h1
      have hne : lb.servers ≠ [] := by
        intro he
        rw [he] at hg
        simp at hg
      have hs : s = slot lb.servers c := by
        have h2 := slot_get? hne c
        rw [hg] at h2
        exact Option.some_inj.mp h2
      have h' : SelectResult.ok s { lb with roundRobinCount := c + 1 } = .ok t lb' := h1
      cases h'
      exact ⟨hne, c, rfl, hs, rfl⟩
  | fuelOut =>
    rw [hf] at h
    have h1 : SelectResult.diverge = .ok t lb' := h
    exact SelectResult.noConfusion h1
  | panic =>
    rw [hf] at h
    have h1 : SelectResult.panic = .ok t lb' := h
    exact SelectResult.noConfusion h1

/-- Conversely: a `found` answer of the skip loop determines the call's
result completely. -/
lemma getNext_of_found {lb : LoadBalancer} {fuel c : Nat}
    (hne : lb.servers ≠ [])
    (hf : findLive lb.servers lb.roundRobinCount fuel = .found c) :
    getNextAvailableServer lb fuel =
      .ok (slot lb.servers c) { lb with roundRobinCount := c + 1 } := by
  simp only [getNextAvailableServer, hf, slot_get? hne]

/-- A successful call strictly increases the cursor. -/
lemma getNext_cursor_lt {lb : LoadBalancer} {fuel : Nat} {t : Server}
    {lb' : LoadBalancer} (h : getNextAvailableServer lb fuel = .ok t lb') :
    lb.roundRobinCount < lb'.roundRobinCount := by
  obtain ⟨-, c, hf, -, rfl⟩ := getNext_ok h
  have := (findLive_found hf).1
  simp
  omega

/-- A successful call changes neither the server list nor the port. -/
lemma getNext_preserves {lb : LoadBalancer} {fuel : Nat} {t : Server}
    {lb' : LoadBalancer} (h : getNextAvailableServer lb fuel = .ok t lb') :
    lb'.servers = lb.servers ∧ lb'.port = lb.port := by
  obtain ⟨-, c, -, -, rfl⟩ := getNext_ok h
  exact ⟨rfl, rfl⟩

/-- A successful call only ever returns a live server. -/
lemma getNext_alive {lb : LoadBalancer} {fuel : Nat} {t : Server}
    {lb' : LoadBalancer} (h : getNextAvailableServer lb fuel = .ok t lb') :
    t.IsAlive = true := by
  obtain ⟨-, c, hf, rfl, -⟩ := getNext_ok h
  exact (findLive_found hf).2.2.1

/-- On an all-dead non-empty pool the skip loop exhausts any fuel. -/
lemma findLive_all_dead {servers : List Server} (hne : servers ≠ [])
    (hd : ∀ t ∈ servers, t.IsAlive = false) (c fuel : Nat) :
    findLive servers c fuel = .fuelOut := by
  induction fuel generalizing c with
  | zero => rfl
  | succ fuel ih =>
    rw [findLive, slot_get? hne c]
    show (if (slot servers c).IsAlive = true then LoopResult.found c
        else findLive servers (c + 1) fuel) = .fuelOut
    rw [if_neg (by simp [hd _ (slot_mem hne c)])]
    exact ih (c + 1)

/-- A call on an all-live pool never iterates the skip loop: it returns
the slot at the current cursor and bumps the cursor by one. -/
lemma getNext_all_alive {lb : LoadBalancer} (hne : lb.servers ≠ [])
    (hal : ∀ t ∈ lb.servers, t.IsAlive = true) {fuel : Nat} (hf : 1 ≤ fuel) :
    getNextAvailableServer lb fuel =
      .ok (slot lb.servers lb.roundRobinCount)
        { lb with roundRobinCount := lb.roundRobinCount + 1 } := by
  have hfound : findLive lb.servers lb.roundRobinCount fuel =
      .found lb.roundRobinCount := by
    obtain ⟨f, rfl⟩ : ∃ f, fuel = f + 1 := ⟨fuel - 1, by omega⟩
    rw [findLive, slot_get? hne]
    show (if (slot lb.servers lb.roundRobinCount).IsAlive = true
        then LoopResult.found lb.roundRobinCount
        else findLive lb.servers (lb.roundRobinCount + 1) f) = _
    rw [if_pos (hal _ (slot_mem hne _))]
  exact getNext_of_found hne hfound

/-- A run over an all-live pool chooses the slots
`cursor, cursor + 1, ..., cursor + m - 1` in order and leaves the cursor
at `cursor + m`. -/
lemma runCalls_all_alive (m : Nat) (lb : LoadBalancer) (fuel : Nat)
    (hne : lb.servers ≠ []) (hal : ∀ t ∈ lb.servers, t.IsAlive = true)
    (hf : 1 ≤ fuel) :
    runCalls lb fuel m =
      some ((List.range m).map (fun j => slot lb.servers (lb.roundRobinCount + j)),
        { lb with roundRobinCount := lb.roundRobinCount + m }) := by
  induction m generalizing lb with
  | zero => simp [runCalls]
  | succ m ih =>
    rw [runCalls, getNext_all_alive hne hal hf]
    show (runCalls { lb with roundRobinCount := lb.roundRobinCount + 1 } fuel m).map
        (fun r => (slot lb.servers lb.roundRobinCount :: r.1, r.2)) = _
    rw [ih { lb with roundRobinCount := lb.roundRobinCount + 1 } hne hal]
    simp only [Option.map_some]
    refine congrArg some (Prod.ext ?_ ?_)
    · show slot lb.servers lb.roundRobinCount ::
        (List.range m).map (fun j => slot lb.servers (lb.roundRobinCount + 1 + j)) =
        (List.range (m + 1)).map (fun j => slot lb.servers (lb.roundRobinCount + j))
      rw [List.range_succ_eq_map, List.map_cons, List.map_map]
      refine congrArg₂ _ (by rw [Nat.add_zero]) ?_
      refine List.map_congr_left ?_
      intro j _
      show slot lb.servers (lb.roundRobinCount + 1 + j) =
        slot lb.servers (lb.roundRobinCount + (j + 1))
      rw [show lb.roundRobinCount + 1 + j = lb.roundRobinCount + (j + 1) by omega]
    · show ({ lb with roundRobinCount := lb.roundRobinCount + 1 + m } : LoadBalancer) =
        { lb with roundRobinCount := lb.roundRobinCount + (m + 1) }
      rw [show lb.roundRobinCount + 1 + m = lb.roundRobinCount + (m + 1) by omega]

/-- Unfolding one step of `stateAfter` from the far end. -/
lemma stateAfter_succ {lb : LoadBalancer} {fuel m : Nat} {lb'' : LoadBalancer} :
    stateAfter lb fuel (m + 1) = some lb'' ↔
      ∃ lb' t, stateAfter lb fuel m = some lb' ∧
        getNextAvailableServer lb' fuel = .ok t lb'' := by
  constructor
  · intro h
    rw [stateAfter] at h
    cases hs : stateAfter lb fuel m with
    | none => rw [hs] at h; exact absurd h (by simp)
    | some lb' =>
      rw [hs] at h
      have h1 : (match getNextAvailableServer lb' fuel with
          | SelectResult.ok _ lbn => some lbn
          | _ => none) = some lb'' := h
      cases hg : getNextAvailableServer lb' fuel with
      | ok t lbn =>
        rw [hg] at h1
        have h2 : some lbn = some lb'' := h1
        cases Option.some_inj.mp h2
        exact ⟨lb', t, rfl, hg⟩
      | diverge =>
        rw [hg] at h1
        exact absurd h1 (by simp)
      | panic =>
        rw [hg] at h1
        exact absurd h1 (by simp)
  · rintro ⟨lb', t, hs, hg⟩
    rw [stateAfter, hs]
    show (match getNextAvailableServer lb' fuel with
        | SelectResult.ok _ lbn => some lbn
        | _ => none) = some lb''
    rw [hg]

/-- The code's skip loop and the spec's step-2 loop compute the same
answer on a non-empty pool. -/
lemma findLive_iff_specScan {servers : List Server} (hne : servers ≠ []) :
    ∀ fuel c c', findLive servers c fuel = .found c' ↔
      specScan servers c fuel = some c' := by
  intro fuel
  induction fuel with
  | zero =>
    intro c c'
    simp [findLive, specScan]
  | succ fuel ih =>
    intro c c'
    rw [findLive, slot_get? hne, specScan]
    show (if (slot servers c).IsAlive = true then LoopResult.found c
        else findLive servers (c + 1) fuel) = .found c' ↔
      (if (slot servers c).IsAlive = true then some c
        else specScan servers (c + 1) fuel) = some c'
    by_cases ha : (slot servers c).IsAlive = true
    · rw [if_pos ha, if_pos ha]
      simp
    · rw [if_neg ha, if_neg ha]
      exact ih (c + 1) c'

/-- Computation rule for `serveProxy` on a successful selection. -/
lemma serveProxy_ok {lb : LoadBalancer} {fuel : Nat} {t : Server}
    {lb' : LoadBalancer} (h : getNextAvailableServer lb fuel = .ok t lb')
    (outcome : Bool) :
    serveProxy lb fuel outcome =
      some ([Event.selected t, Event.forwarded t outcome], lb') := by
  unfold serveProxy
  rw [h]

/-- Function `serveProxy` succeeds only through a successful selection. -/
lemma serveProxy_inv {lb : LoadBalancer} {fuel : Nat} {outcome : Bool}
    {tr : List Event} {lb' : LoadBalancer}
    (h : serveProxy lb fuel outcome = some (tr, lb')) :
    ∃ t, getNextAvailableServer lb fuel = .ok t lb' ∧
      tr = [Event.selected t, Event.forwarded t outcome] := by
  unfold serveProxy at h
  cases hg : getNextAvailableServer lb fuel with
  | ok t lbn =>
    rw [hg] at h
    have h1 : some ([Event.selected t, Event.forwarded t outcome], lbn) =
        some (tr, lb') := h
    have h2 := Option.some_inj.mp h1
    cases h2
    exact ⟨t, rfl, rfl⟩
  | diverge =>
    rw [hg] at h
    exact absurd h (by simp)
  | panic =>
    rw [hg] at h
    exact absurd h (by simp)

/-- Among `k * n` consecutive selection steps, each residue `i < n` occurs
exactly `k` times. -/
lemma countP_range_mod (n i : Nat) (hi : i < n) :
    ∀ k, (List.range (k * n)).countP (fun j => j % n == i) = k := by
  intro k
  induction k with
  | zero => simp
  | succ k ih =>
    rw [show (k + 1) * n = k * n + n by ring, List.range_add,
      List.countP_append, ih, List.countP_map]
    have h2 : (List.range n).countP ((fun j => j % n == i) ∘ (fun r => k * n + r))
        = (List.range n).countP (fun r => r == i) := by
      refine List.countP_congr ?_
      intro r hr
      have hr' : r < n := List.mem_range.mp hr
      show ((k * n + r) % n == i) = true ↔ (r == i) = true
      rw [show k * n + r = r + k * n by omega, Nat.add_mul_mod_self_right,
        Nat.mod_eq_of_lt hr']
    rw [h2]
    have h3 : (List.range n).countP (fun r => r == i) = List.count i (List.range n) := rfl
    rw [h3, List.count_eq_one_of_mem (List.nodup_range n) (List.mem_range.mpr hi)]

/-- Shifting the argument by `s` does not change how often a predicate on
residues holds over a full cycle `0, ..., a-1`. -/
lemma countP_range_mod_shift (a : Nat) (p : Nat → Bool) :
    ∀ s, (List.range a).countP (fun k => p ((s + k) % a)) =
      (List.range a).countP (fun k => p (k % a)) := by
  intro s
  induction s with
  | zero => simp
  | succ s ih =>
    rw [← ih]
    have key : ∀ q : Nat → Bool, q a = q 0 →
        (List.range a).countP (fun k => q (k + 1)) = (List.range a).countP q := by
      intro q hq
      have h1 : (List.range (a + 1)).countP q =
          (List.range a).countP q + (if q a then 1 else 0) := by
        rw [List.range_succ, List.countP_append]
        simp [List.countP_cons]
      have h2 : (List.range (a + 1)).countP q =
          (if q 0 then 1 else 0) + (List.range a).countP (fun k => q (k + 1)) := by
        rw [List.range_succ_eq_map, List.countP_cons, List.countP_map]
        have : (q ∘ Nat.succ) = (fun k => q (k + 1)) := rfl
        rw [this]
        by_cases h0 : q 0 = true
        · simp [h0]
          omega
        · simp [h0]
      rw [hq] at h1
      omega
    have hq : (fun k => p ((s + k) % a)) a = (fun k => p ((s + k) % a)) 0 := by
      show p ((s + a) % a) = p ((s + 0) % a)
      rw [Nat.add_mod_right, Nat.add_zero]
    have := key (fun k => p ((s + k) % a)) hq
    calc (List.range a).countP (fun k => p ((s + 1 + k) % a))
        = (List.range a).countP (fun k => p ((s + (k + 1)) % a)) := by
          refine List.countP_congr ?_
          intro x _
          rw [show s + 1 + x = s + (x + 1) by omega]
      _ = (List.range a).countP (fun k => p ((s + k) % a)) := this

lemma skipIdx_lt {n d φ : Nat} (hd : d < n) (hφ : φ < n - 1) : skipIdx d φ < n := by
  unfold skipIdx
  split_ifs <;> omega

lemma skipIdx_ne {d φ : Nat} : skipIdx d φ ≠ d := by
  unfold skipIdx
  split_ifs <;> omega

lemma skipIdx_inj (d : Nat) : Function.Injective (skipIdx d) := by
  intro x y h
  unfold skipIdx at h
  split_ifs at h <;> omega

/-- Cursor-advance of one selection step, at the level of loop phases:
after returning the `φ`-th alive slot, the cursor sits either directly on
the `(φ+1)`-th alive slot, or on the dead slot immediately before it. -/
lemma skipIdx_next {n d φ : Nat} (hn : 2 ≤ n) (hd : d < n) (hφ : φ < n - 1) :
    ((skipIdx d φ + 1) % n = skipIdx d ((φ + 1) % (n - 1))) ∨
    ((skipIdx d φ + 1) % n = d ∧ (d + 1) % n = skipIdx d ((φ + 1) % (n - 1))) := by
  unfold skipIdx
  by_cases hA : φ < d
  · rw [if_pos hA]
    by_cases hA1 : φ + 1 < d
    · have e1 : (φ + 1) % (n - 1) = φ + 1 := Nat.mod_eq_of_lt (by omega)
      rw [e1, if_pos hA1]
      left
      exact Nat.mod_eq_of_lt (by omega)
    · have hA2 : φ + 1 = d := by omega
      by_cases hB : d < n - 1
      · have e1 : (φ + 1) % (n - 1) = d := by
          rw [hA2]
          exact Nat.mod_eq_of_lt hB
        rw [e1, if_neg (by omega)]
        right
        constructor
        · rw [hA2]
          exact Nat.mod_eq_of_lt (by omega)
        · exact Nat.mod_eq_of_lt (by omega)
      · have hdn : d = n - 1 := by omega
        have e1 : (φ + 1) % (n - 1) = 0 := by
          rw [hA2, hdn]
          exact Nat.mod_self _
        rw [e1, if_pos (by omega)]
        right
        constructor
        · rw [hA2]
          exact Nat.mod_eq_of_lt (by omega)
        · rw [show d + 1 = n by omega]
          exact Nat.mod_self n
  · rw [if_neg hA]
    by_cases h1 : φ + 1 < n - 1
    · have e1 : (φ + 1) % (n - 1) = φ + 1 := Nat.mod_eq_of_lt h1
      rw [e1, if_neg (by omega)]
      left
      exact Nat.mod_eq_of_lt (by omega)
    · have hφa : φ + 1 = n - 1 := by omega
      have e1 : (φ + 1) % (n - 1) = 0 := by
        rw [hφa]
        exact Nat.mod_self _
      rw [e1]
      have e2 : (φ + 1 + 1) % n = 0 := by
        rw [show φ + 1 + 1 = n by omega]
        exact Nat.mod_self n
      by_cases hd0 : 0 < d
      · rw [if_pos hd0]
        left
        rw [e2]
      · rw [if_neg hd0]
        right
        have hd00 : d = 0 := by omega
        constructor
        · rw [e2, hd00]
        · rw [hd00]
          exact Nat.mod_eq_of_lt hn

/-- Function `slot` at an in-range position is plain list indexing. -/
lemma slot_lt_eq_get {servers : List Server} {i : Nat} (hi : i < servers.length) :
    slot servers i = servers.get ⟨i, hi⟩ := by
  have h1 : i % servers.length = i := Nat.mod_eq_of_lt hi
  rw [slot_get i (by rw [h1]; exact hi)]
  simp [h1]

/-- On a duplicate-free pool, distinct in-range positions hold distinct
servers. -/
lemma slot_inj {servers : List Server} (hnd : servers.Nodup) {i j : Nat}
    (hi : i < servers.length) (hj : j < servers.length)
    (h : slot servers i = slot servers j) : i = j := by
  rw [slot_lt_eq_get hi, slot_lt_eq_get hj] at h
  have := (List.Nodup.get_inj_iff hnd).mp h
  exact congrArg Fin.val this

/-- One selection step on a pool whose only dead slot is `d`: from a cursor
satisfying the phase invariant for phase `φ`, the call returns the `φ`-th
alive slot and re-establishes the invariant for the next phase's cursor
position. -/
lemma oneDead_call {servers : List Server} {d : Nat}
    (hn : 2 ≤ servers.length) (hd : d < servers.length)
    (hdead : (slot servers d).IsAlive = false)
    (hal : ∀ i, i < servers.length → i ≠ d → (slot servers i).IsAlive = true)
    {fuel : Nat} (hf : 2 ≤ fuel) (p : String) (c φ : Nat)
    (hφ : φ < servers.length - 1)
    (hc : c % servers.length = skipIdx d φ ∨
      (c % servers.length = d ∧ (d + 1) % servers.length = skipIdx d φ)) :
    ∃ c', getNextAvailableServer ⟨p, c, servers⟩ fuel =
        .ok (slot servers (skipIdx d φ)) ⟨p, c', servers⟩ ∧
      c' % servers.length = (skipIdx d φ + 1) % servers.length := by
  have hne : servers ≠ [] := by
    intro he
    rw [he] at hn
    simp at hn
  have hr_lt : skipIdx d φ < servers.length := skipIdx_lt hd hφ
  have halr : (slot servers (skipIdx d φ)).IsAlive = true := hal _ hr_lt skipIdx_ne
  rcases hc with hc | ⟨hc, hr⟩
  · have hslotc : slot servers c = slot servers (skipIdx d φ) := by
      rw [← slot_mod c, hc]
    have hfound : findLive servers c fuel = .found c := by
      obtain ⟨f, rfl⟩ : ∃ f, fuel = f + 1 := ⟨fuel - 1, by omega⟩
      rw [findLive, slot_get? hne]
      show (if (slot servers c).IsAlive = true then LoopResult.found c
          else findLive servers (c + 1) f) = _
      rw [if_pos (by rw [hslotc]; exact halr)]
    refine ⟨c + 1, ?_, ?_⟩
    · have hcall := @getNext_of_found ⟨p, c, servers⟩ fuel c hne hfound
      rw [← hslotc]
      exact hcall
    · show (c + 1) % servers.length = (skipIdx d φ + 1) % servers.length
      rw [← Nat.mod_add_mod, hc]
  · have hslotc : slot servers c = slot servers d := by
      rw [← slot_mod c, hc]
    have hslotc1 : slot servers (c + 1) = slot servers (skipIdx d φ) := by
      rw [← slot_mod (c + 1)]
      have he1 : (c + 1) % servers.length = (d + 1) % servers.length := by
        rw [← Nat.mod_add_mod, hc]
      rw [he1, hr]
    have hfound : findLive servers c fuel = .found (c + 1) := by
      obtain ⟨f, rfl⟩ : ∃ f, fuel = f + 2 := ⟨fuel - 2, by omega⟩
      rw [show f + 2 = (f + 1) + 1 by rfl, findLive, slot_get? hne]
      show (if (slot servers c).IsAlive = true then LoopResult.found c
          else findLive servers (c + 1) (f + 1)) = _
      rw [if_neg (by rw [hslotc, hdead]; simp)]
      rw [findLive, slot_get? hne]
      show (if (slot servers (c + 1)).IsAlive = true then LoopResult.found (c + 1)
          else findLive servers (c + 1 + 1) f) = _
      rw [if_pos (by rw [hslotc1]; exact halr)]
    refine ⟨c + 2, ?_, ?_⟩
    · have hcall := @getNext_of_found ⟨p, c, servers⟩ fuel (c + 1) hne hfound
      rw [← hslotc1]
      exact hcall
    · show (c + 2) % servers.length = (skipIdx d φ + 1) % servers.length
      rw [← Nat.mod_add_mod, hc, ← hr, Nat.mod_add_mod]

/-- A run on a pool whose only dead slot is `d` returns the alive slots
cyclically in pool order: starting at phase `φ`, call `j` returns the
`(φ + j) mod (n-1)`-th alive slot, and the phase invariant holds again at
the end of the run. -/
lemma oneDead_run {servers : List Server} {d : Nat}
    (hn : 2 ≤ servers.length) (hd : d < servers.length)
    (hdead : (slot servers d).IsAlive = false)
    (hal : ∀ i, i < servers.length → i ≠ d → (slot servers i).IsAlive = true)
    {fuel : Nat} (hf : 2 ≤ fuel) (p : String) :
    ∀ m c φ, φ < servers.length - 1 →
      (c % servers.length = skipIdx d φ ∨
        (c % servers.length = d ∧ (d + 1) % servers.length = skipIdx d φ)) →
      ∃ c'', runCalls ⟨p, c, servers⟩ fuel m =
          some ((List.range m).map
            (fun j => slot servers (skipIdx d ((φ + j) % (servers.length - 1)))),
            ⟨p, c'', servers⟩) ∧
        (c'' % servers.length = skipIdx d ((φ + m) % (servers.length - 1)) ∨
          (c'' % servers.length = d ∧
            (d + 1) % servers.length = skipIdx d ((φ + m) % (servers.length - 1)))) := by
  intro m
  induction m with
  | zero =>
    intro c φ hφ hc
    refine ⟨c, ?_, ?_⟩
    · rw [runCalls]
      simp
    · rw [Nat.add_zero, Nat.mod_eq_of_lt hφ]
      exact hc
  | succ m ih =>
    intro c φ hφ hc
    obtain ⟨c1, hcall, hc1⟩ := oneDead_call hn hd hdead hal hf p c φ hφ hc
    have ha : 0 < servers.length - 1 := by omega
    have hnext := skipIdx_next hn hd hφ
    have hφ' : (φ + 1) % (servers.length - 1) < servers.length - 1 :=
      Nat.mod_lt _ ha
    have hinv1 : c1 % servers.length = skipIdx d ((φ + 1) % (servers.length - 1)) ∨
        (c1 % servers.length = d ∧
          (d + 1) % servers.length = skipIdx d ((φ + 1) % (servers.length - 1))) := by
      rcases hnext with h | ⟨h1, h2⟩
      · left
        rw [hc1, h]
      · right
        exact ⟨by rw [hc1, h1], h2⟩
    obtain ⟨c'', hrun, hcm⟩ := ih c1 ((φ + 1) % (servers.length - 1)) hφ' hinv1
    have he : ((φ + 1) % (servers.length - 1) + m) % (servers.length - 1) =
        (φ + (m + 1)) % (servers.length - 1) := by
      rw [Nat.mod_add_mod, show φ + 1 + m = φ + (m + 1) by omega]
    refine ⟨c'', ?_, by rw [← he]; exact hcm⟩
    rw [runCalls, hcall]
    show (runCalls ⟨p, c1, servers⟩ fuel m).map
        (fun r => (slot servers (skipIdx d φ) :: r.1, r.2)) = _
    rw [hrun]
    simp only [Option.map_some']
    refine congrArg some (Prod.ext ?_ rfl)
    show slot servers (skipIdx d φ) ::
        (List.range m).map (fun j => slot servers
          (skipIdx d (((φ + 1) % (servers.length - 1) + j) % (servers.length - 1)))) =
      (List.range (m + 1)).map
        (fun j => slot servers (skipIdx d ((φ + j) % (servers.length - 1))))
    rw [List.range_succ_eq_map, List.map_cons, List.map_map]
    refine congrArg₂ _ ?_ ?_
    · rw [Nat.add_zero, Nat.mod_eq_of_lt hφ]
    · refine (List.map_congr_left ?_).symm
      intro j _
      show slot servers (skipIdx d ((φ + (j + 1)) % (servers.length - 1))) =
        slot servers (skipIdx d
          (((φ + 1) % (servers.length - 1) + j) % (servers.length - 1)))
      rw [Nat.mod_add_mod, show φ + 1 + j = φ + (j + 1) by omega]

/-- A window of `a` consecutive positions inside `range M`, as a shifted
`range a`. -/
lemma range_drop_take {s a M : Nat} (h : s + a ≤ M) :
    ((List.range M).drop s).take a = (List.range a).map (fun k => s + k) := by
  obtain ⟨r, rfl⟩ : ∃ r, M = s + a + r := ⟨M - (s + a), by omega⟩
  rw [List.range_add, List.range_add, List.append_assoc,
    List.drop_left' (List.length_range s),
    List.take_left' (by rw [List.length_map, List.length_range])]

lemma LoadBalancer.ext {x y : LoadBalancer} (h1 : x.port = y.port)
    (h2 : x.roundRobinCount = y.roundRobinCount) (h3 : x.servers = y.servers) :
    x = y := by
  cases x
  cases y
  simp only at h1 h2 h3
  rw [h1, h2, h3]

/-- C1: the selection operation `getNextAvailableServer` follows exactly the
spec's algorithm: on a non-empty pool, a call succeeds with server `t` and
new state `lb'` precisely when the spec algorithm (scan from
`cursor mod poolSize` while not alive, then increment once more) yields
`t` with the same new cursor, the port and pool being untouched. -/
theorem c1_selection_follows_spec_algorithm (lb : LoadBalancer) (fuel : Nat)
    (t : Server) (lb' : LoadBalancer) (hne : lb.servers ≠ []) :
    getNextAvailableServer lb fuel = .ok t lb' ↔
      (specSelect lb.servers lb.roundRobinCount fuel = some (t, lb'.roundRobinCount) ∧
        lb'.port = lb.port ∧ lb'.servers = lb.servers) := by
  constructor
  · intro h
    obtain ⟨-, c, hf, rfl, rfl⟩ := getNext_ok h
    have hscan := (findLive_iff_specScan hne fuel lb.roundRobinCount c).mp hf
    refine ⟨?_, rfl, rfl⟩
    show (specScan lb.servers lb.roundRobinCount fuel).map _ = _
    rw [hscan, Option.map_some']
    rfl
  · rintro ⟨hsel, hport, hserv⟩
    unfold specSelect at hsel
    cases hscan : specScan lb.servers lb.roundRobinCount fuel with
    | none =>
      rw [hscan] at hsel
      exact absurd hsel (by simp)
    | some c =>
      rw [hscan, Option.map_some'] at hsel
      have hpair := Option.some_inj.mp hsel
      have ht : slot lb.servers c = t := congrArg Prod.fst hpair
      have hcur : c + 1 = lb'.roundRobinCount := congrArg Prod.snd hpair
      have hf := (findLive_iff_specScan hne fuel lb.roundRobinCount c).mpr hscan
      have hcall := getNext_of_found hne hf
      rw [ht] at hcall
      have hlb : lb' = { lb with roundRobinCount := c + 1 } :=
        LoadBalancer.ext hport hcur.symm hserv
      rw [hcall, hlb]

/-- Witness for C1 at a one-server pool with fuel 1. -/
theorem c1_selection_follows_spec_algorithm_witness :
    (([⟨"a", true⟩] : List Server) ≠ []) ∧
      (getNextAvailableServer (NewLoadBalancer "8000" [⟨"a", true⟩]) 1 =
          .ok ⟨"a", true⟩ ⟨"8000", 1, [⟨"a", true⟩]⟩ ↔
        (specSelect [⟨"a", true⟩] 0 1 = some (⟨"a", true⟩, 1) ∧
          ("8000" : String) = "8000" ∧
          ([⟨"a", true⟩] : List Server) = [⟨"a", true⟩])) :=
  ⟨by decide,
    c1_selection_follows_spec_algorithm (NewLoadBalancer "8000" [⟨"a", true⟩]) 1
      ⟨"a", true⟩ ⟨"8000", 1, [⟨"a", true⟩]⟩ (by decide)⟩

/-- C2: round-robin fairness. For a non-empty, duplicate-free, all-live pool
and `M = k * N` successive calls on a fresh balancer, the sequence of chosen
servers is the cyclic repetition of the pool in insertion order
(call `j` returns `servers[j mod N]`), every server is returned exactly
`k = M / N` times, and the cursor ends at `M`. -/
theorem c2_round_robin_fairness (p : String) (servers : List Server)
    (k fuel : Nat) (hne : servers ≠ [])
    (hal : ∀ t ∈ servers, t.IsAlive = true) (hnd : servers.Nodup)
    (hf : 1 ≤ fuel) :
    ∃ chosen lbf,
      runCalls (NewLoadBalancer p servers) fuel (k * servers.length) =
        some (chosen, lbf) ∧
      chosen = (List.range (k * servers.length)).map (fun j => slot servers j) ∧
      (∀ t ∈ servers, chosen.count t = k) ∧
      lbf.roundRobinCount = k * servers.length := by
  have hn : 0 < servers.length := List.length_pos.mpr hne
  have hrun := runCalls_all_alive (k * servers.length) (NewLoadBalancer p servers)
    fuel hne hal hf
  refine ⟨(List.range (k * servers.length)).map (fun j => slot servers j),
    ⟨p, k * servers.length, servers⟩, ?_, rfl, ?_, rfl⟩
  · rw [hrun]
    refine congrArg some (Prod.ext ?_ ?_)
    · refine List.map_congr_left ?_
      intro j _
      show slot servers (0 + j) = slot servers j
      rw [Nat.zero_add]
    · exact LoadBalancer.ext rfl (Nat.zero_add _) rfl
  · intro t ht
    obtain ⟨i, hti⟩ := List.mem_iff_get.mp ht
    subst hti
    rw [List.count_eq_countP, List.countP_map]
    have hcongr : (List.range (k * servers.length)).countP
        ((fun x => x == servers.get i) ∘ (fun j => slot servers j)) =
      (List.range (k * servers.length)).countP
        (fun j => j % servers.length == i.1) := by
      refine List.countP_congr ?_
      intro j _
      show (slot servers j == servers.get i) = true ↔
        (j % servers.length == i.1) = true
      rw [beq_iff_eq, beq_iff_eq]
      constructor
      · intro hsl
        refine slot_inj hnd (Nat.mod_lt _ hn) i.isLt ?_
        rw [slot_mod j, hsl, slot_lt_eq_get i.isLt]
      · intro hmod
        rw [← slot_mod j, hmod, slot_lt_eq_get i.isLt]
    rw [hcongr, countP_range_mod servers.length i.1 i.isLt k]

/-- Witness for C2: two live servers, four calls, each chosen twice. -/
theorem c2_round_robin_fairness_witness :
    (([⟨"a", true⟩, ⟨"b", true⟩] : List Server) ≠ [] ∧
      (∀ t ∈ ([⟨"a", true⟩, ⟨"b", true⟩] : List Server), t.IsAlive = true) ∧
      ([⟨"a", true⟩, ⟨"b", true⟩] : List Server).Nodup ∧ 1 ≤ 1) ∧
    (∃ chosen lbf,
      runCalls (NewLoadBalancer "p" [⟨"a", true⟩, ⟨"b", true⟩]) 1
          (2 * ([⟨"a", true⟩, ⟨"b", true⟩] : List Server).length) =
        some (chosen, lbf) ∧
      chosen = (List.range (2 * ([⟨"a", true⟩, ⟨"b", true⟩] : List Server).length)).map
        (fun j => slot [⟨"a", true⟩, ⟨"b", true⟩] j) ∧
      (∀ t ∈ ([⟨"a", true⟩, ⟨"b", true⟩] : List Server), chosen.count t = 2) ∧
      lbf.roundRobinCount = 2 * ([⟨"a", true⟩, ⟨"b", true⟩] : List Server).length) :=
  ⟨⟨by decide, by decide, by decide, by decide⟩,
    c2_round_robin_fairness "p" [⟨"a", true⟩, ⟨"b", true⟩] 2 1
      (by decide) (by decide) (by decide) (by decide)⟩

/-- C4: termination of selection. On a non-empty pool: if some server is
alive, any fuel of at least the pool size (one full pass from the initial
candidate) makes the call return; if every server is dead, the loop out-
runs every fuel bound, i.e. it never terminates. -/
theorem c4_selection_termination (lb : LoadBalancer) (hne : lb.servers ≠ []) :
    ((∃ t ∈ lb.servers, t.IsAlive = true) →
      ∀ fuel, lb.servers.length ≤ fuel →
        ∃ t lb', getNextAvailableServer lb fuel = .ok t lb') ∧
    ((∀ t ∈ lb.servers, t.IsAlive = false) →
      ∀ fuel, getNextAvailableServer lb fuel = .diverge) := by
  have hn : 0 < lb.servers.length := List.length_pos.mpr hne
  constructor
  · rintro ⟨t, ht, hta⟩ fuel hfuel
    obtain ⟨i, hti⟩ := List.mem_iff_get.mp ht
    have hr : lb.roundRobinCount % lb.servers.length < lb.servers.length :=
      Nat.mod_lt _ hn
    have hk : ∃ k, k < lb.servers.length ∧
        (lb.roundRobinCount + k) % lb.servers.length = i.1 := by
      by_cases h1 : lb.roundRobinCount % lb.servers.length ≤ i.1
      · refine ⟨i.1 - lb.roundRobinCount % lb.servers.length, ?_, ?_⟩
        · have := i.isLt
          omega
        · have hklt : i.1 - lb.roundRobinCount % lb.servers.length <
              lb.servers.length := by
            have := i.isLt
            omega
          rw [Nat.add_mod, Nat.mod_eq_of_lt hklt,
            show lb.roundRobinCount % lb.servers.length +
              (i.1 - lb.roundRobinCount % lb.servers.length) = i.1 by omega]
          exact Nat.mod_eq_of_lt i.isLt
      · refine ⟨i.1 + lb.servers.length - lb.roundRobinCount % lb.servers.length,
          by omega, ?_⟩
        have hklt : i.1 + lb.servers.length -
            lb.roundRobinCount % lb.servers.length < lb.servers.length := by
          omega
        rw [Nat.add_mod, Nat.mod_eq_of_lt hklt,
          show lb.roundRobinCount % lb.servers.length +
            (i.1 + lb.servers.length - lb.roundRobinCount % lb.servers.length) =
            i.1 + lb.servers.length by omega,
          Nat.add_mod_right]
        exact Nat.mod_eq_of_lt i.isLt
    obtain ⟨k, hk1, hk2⟩ := hk
    have halive : (slot lb.servers (lb.roundRobinCount + k)).IsAlive = true := by
      rw [← slot_mod, hk2, slot_lt_eq_get i.isLt]
      show (lb.servers.get i).IsAlive = true
      rw [hti]
      exact hta
    obtain ⟨c', hc'⟩ := findLive_complete (show k < fuel by omega) halive hne
    exact ⟨_, _, getNext_of_found hne hc'⟩
  · intro hdead fuel
    have hall := findLive_all_dead hne hdead lb.roundRobinCount fuel
    simp only [getNextAvailableServer, hall]

/-- Witness for C4 at a one-live-server pool. -/
theorem c4_selection_termination_witness :
    ((NewLoadBalancer "p" [⟨"a", true⟩]).servers ≠ []) ∧
      (((∃ t ∈ (NewLoadBalancer "p" [⟨"a", true⟩]).servers, t.IsAlive = true) →
        ∀ fuel, (NewLoadBalancer "p" [⟨"a", true⟩]).servers.length ≤ fuel →
          ∃ t lb', getNextAvailableServer (NewLoadBalancer "p" [⟨"a", true⟩]) fuel =
            .ok t lb') ∧
      ((∀ t ∈ (NewLoadBalancer "p" [⟨"a", true⟩]).servers, t.IsAlive = false) →
        ∀ fuel, getNextAvailableServer (NewLoadBalancer "p" [⟨"a", true⟩]) fuel =
          .diverge)) :=
  ⟨by decide, c4_selection_termination (NewLoadBalancer "p" [⟨"a", true⟩]) (by decide)⟩

/-- C5: progress invariant. A returning call strictly increases
`roundRobinCount`, and along any sequence of successful calls the cursor
is strictly monotone — it never decreases and never repeats a value. -/
theorem c5_progress_invariant (lb : LoadBalancer) (fuel : Nat) :
    (∀ t lb', getNextAvailableServer lb fuel = .ok t lb' →
      lb.roundRobinCount < lb'.roundRobinCount) ∧
    (∀ i j lbi lbj, i < j →
      stateAfter lb fuel i = some lbi → stateAfter lb fuel j = some lbj →
      lbi.roundRobinCount < lbj.roundRobinCount) := by
  constructor
  · intro t lb' h
    exact getNext_cursor_lt h
  · intro i j lbi
    induction j with
    | zero =>
      intro lbj h0 _ _
      omega
    | succ m ih =>
      intro lbj hij hi hj
      obtain ⟨lbm, t, hm, hcall⟩ := stateAfter_succ.mp hj
      rcases Nat.lt_succ_iff_lt_or_eq.mp hij with hlt | heq
      · exact Nat.lt_trans (ih lbm hlt hi hm) (getNext_cursor_lt hcall)
      · subst heq
        rw [hi] at hm
        cases Option.some_inj.mp hm
        exact getNext_cursor_lt hcall

/-- Witness for C5: the cursor after one call exceeds the cursor before. -/
theorem c5_progress_invariant_witness :
    (0 < 1) ∧
      (stateAfter (NewLoadBalancer "p" [⟨"a", true⟩]) 1 0 =
        some (NewLoadBalancer "p" [⟨"a", true⟩])) ∧
      (stateAfter (NewLoadBalancer "p" [⟨"a", true⟩]) 1 1 =
        some ⟨"p", 1, [⟨"a", true⟩]⟩) ∧
      (NewLoadBalancer "p" [⟨"a", true⟩]).roundRobinCount <
        (⟨"p", 1, [⟨"a", true⟩]⟩ : LoadBalancer).roundRobinCount :=
  ⟨by decide, by decide, by decide,
    (c5_progress_invariant (NewLoadBalancer "p" [⟨"a", true⟩]) 1).2
      0 1 (NewLoadBalancer "p" [⟨"a", true⟩]) ⟨"p", 1, [⟨"a", true⟩]⟩
      (by decide) (by decide) (by decide)⟩

/-- C6: index validity. On a non-empty pool, `cursor % len(servers)` is a
valid index, and no call to `getNextAvailableServer` — whatever the fuel —
ever reaches the out-of-bounds/panic outcome: every lookup it performs is
in bounds. -/
theorem c6_index_validity (lb : LoadBalancer) (hne : lb.servers ≠ []) :
    lb.roundRobinCount % lb.servers.length < lb.servers.length ∧
    ∀ fuel, getNextAvailableServer lb fuel ≠ .panic := by
  have hn : 0 < lb.servers.length := List.length_pos.mpr hne
  refine ⟨Nat.mod_lt _ hn, ?_⟩
  intro fuel
  unfold getNextAvailableServer
  cases hf : findLive lb.servers lb.roundRobinCount fuel with
  | found c =>
    show (match lb.servers.get? (c % lb.servers.length) with
      | some s => SelectResult.ok s { lb with roundRobinCount := c + 1 }
      | none => SelectResult.panic) ≠ SelectResult.panic
    rw [slot_get? hne c]
    simp
  | fuelOut => simp
  | panic => exact absurd hf (findLive_no_panic hne _ fuel)

/-- Witness for C6 at a concrete one-server balancer. -/
theorem c6_index_validity_witness :
    ((⟨"p", 7, [⟨"a", true⟩]⟩ : LoadBalancer).servers ≠ []) ∧
      ((⟨"p", 7, [⟨"a", true⟩]⟩ : LoadBalancer).roundRobinCount %
          (⟨"p", 7, [⟨"a", true⟩]⟩ : LoadBalancer).servers.length <
        (⟨"p", 7, [⟨"a", true⟩]⟩ : LoadBalancer).servers.length ∧
      ∀ fuel, getNextAvailableServer (⟨"p", 7, [⟨"a", true⟩]⟩ : LoadBalancer) fuel ≠
        .panic) :=
  ⟨by decide, c6_index_validity ⟨"p", 7, [⟨"a", true⟩]⟩ (by decide)⟩

/-- C7: dispatch contract. A request served by `serveProxy` selects a
server exactly once, forwards exactly once — to the very server the
selection returned — leaves every server's liveness flag untouched, and
whatever the forwarding outcome there is no retry and no alternate
selection: the resulting state is the same for every outcome. -/
theorem c7_dispatch_contract (lb : LoadBalancer) (fuel : Nat) (outcome : Bool)
    (tr : List Event) (lb' : LoadBalancer)
    (h : serveProxy lb fuel outcome = some (tr, lb')) :
    tr.countP Event.isSelection = 1 ∧
    tr.countP Event.isForward = 1 ∧
    (∃ t, getNextAvailableServer lb fuel = .ok t lb' ∧
      tr = [Event.selected t, Event.forwarded t outcome]) ∧
    lb'.servers = lb.servers ∧
    (∀ o : Bool, ∃ t,
      serveProxy lb fuel o = some ([Event.selected t, Event.forwarded t o], lb')) := by
  obtain ⟨t, hg, rfl⟩ := serveProxy_inv h
  refine ⟨?_, ?_, ⟨t, hg, rfl⟩, (getNext_preserves hg).1, ?_⟩
  · simp [List.countP_cons, Event.isSelection]
  · simp [List.countP_cons, Event.isForward]
  · intro o
    exact ⟨t, serveProxy_ok hg o⟩

/-- Witness for C7 at a one-server pool. -/
theorem c7_dispatch_contract_witness :
    (serveProxy (NewLoadBalancer "p" [⟨"a", true⟩]) 1 false =
      some ([Event.selected ⟨"a", true⟩, Event.forwarded ⟨"a", true⟩ false],
        ⟨"p", 1, [⟨"a", true⟩]⟩)) ∧
    (([Event.selected ⟨"a", true⟩, Event.forwarded ⟨"a", true⟩ false] :
        List Event).countP Event.isSelection = 1 ∧
      ([Event.selected ⟨"a", true⟩, Event.forwarded ⟨"a", true⟩ false] :
        List Event).countP Event.isForward = 1 ∧
      (∃ t, getNextAvailableServer (NewLoadBalancer "p" [⟨"a", true⟩]) 1 =
          .ok t ⟨"p", 1, [⟨"a", true⟩]⟩ ∧
        ([Event.selected ⟨"a", true⟩, Event.forwarded ⟨"a", true⟩ false] :
          List Event) = [Event.selected t, Event.forwarded t false]) ∧
      (⟨"p", 1, [⟨"a", true⟩]⟩ : LoadBalancer).servers =
        (NewLoadBalancer "p" [⟨"a", true⟩]).servers ∧
      (∀ o : Bool, ∃ t,
        serveProxy (NewLoadBalancer "p" [⟨"a", true⟩]) 1 o =
          some ([Event.selected t, Event.forwarded t o],
            ⟨"p", 1, [⟨"a", true⟩]⟩))) :=
  ⟨by decide,
    c7_dispatch_contract (NewLoadBalancer "p" [⟨"a", true⟩]) 1 false
      [Event.selected ⟨"a", true⟩, Event.forwarded ⟨"a", true⟩ false]
      ⟨"p", 1, [⟨"a", true⟩]⟩ (by decide)⟩

/-- C8: startup validation. A parse failure on a backend address makes
`newSimpleServer` exit the process with status 1 after printing the error;
it never yields a server value; and a configuration containing any failing
address makes the whole startup construction exit with status 1, so no
balancer exists and no request is ever dispatched. -/
theorem c8_startup_validation (addr msg : String) :
    newSimpleServer addr (some msg) = .exited 1 ("error: " ++ msg) ∧
    (∀ s : simpleServer, newSimpleServer addr (some msg) ≠ .ok s) ∧
    (∀ config : List (String × Option String),
      (∃ e ∈ config, e.2.isSome = true) →
      ∃ m, buildServers config = .exited 1 m) := by
  refine ⟨rfl, ?_, ?_⟩
  · intro s h
    simp [newSimpleServer, handleErr] at h
  · intro config
    induction config with
    | nil =>
      intro hc
      simp at hc
    | cons e rest ih =>
      intro hc
      obtain ⟨f, hf, hfs⟩ := hc
      cases hef : e.2 with
      | some m0 =>
        refine ⟨"error: " ++ m0, ?_⟩
        simp only [buildServers]
        rw [hef]
        rfl
      | none =>
        rcases List.mem_cons.mp hf with rfl | hfr
        · rw [hef] at hfs
          simp at hfs
        · obtain ⟨m, hm⟩ := ih ⟨f, hfr, hfs⟩
          refine ⟨m, ?_⟩
          simp only [buildServers]
          rw [hef]
          show (match buildServers rest with
            | StartupResult.ok ss => StartupResult.ok ({ addr := e.1 } :: ss)
            | StartupResult.exited c m => StartupResult.exited c m) =
            StartupResult.exited 1 m
          rw [hm]

/-- Witness for C8: a failing address in a two-entry configuration. -/
theorem c8_startup_validation_witness :
    (newSimpleServer "bad" (some "parse failed") =
      .exited 1 ("error: " ++ "parse failed")) ∧
    ((∃ e ∈ ([("good", none), ("bad", some "parse failed")] :
        List (String × Option String)), e.2.isSome = true) ∧
      ∃ m, buildServers [("good", none), ("bad", some "parse failed")] =
        .exited 1 m) :=
  ⟨(c8_startup_validation "bad" "parse failed").1,
    ⟨by decide,
      (c8_startup_validation "bad" "parse failed").2.2
        [("good", none), ("bad", some "parse failed")] (by decide)⟩⟩

/-- C9: static liveness. Every `simpleServer` answers `IsAlive() = true`
regardless of its address or any operation performed on it; no operation
of the program (selection or dispatch) changes any server's liveness flag;
consequently on a pool built from `simpleServer`s the skip loop of
`getNextAvailableServer` performs zero iterations — it accepts the very
first candidate, at the initial cursor, on every call. -/
theorem c9_static_liveness :
    (∀ s : simpleServer, s.IsAlive = true) ∧
    (∀ (ss : List simpleServer) (c : Nat), ss ≠ [] → ∀ fuel, 1 ≤ fuel →
      findLive (ss.map simpleServer.asServer) c fuel = .found c) ∧
    (∀ lb fuel t lb', getNextAvailableServer lb fuel = .ok t lb' →
      lb'.servers = lb.servers) ∧
    (∀ lb fuel o tr lb', serveProxy lb fuel o = some (tr, lb') →
      lb'.servers = lb.servers) := by
  refine ⟨fun s => rfl, ?_, ?_, ?_⟩
  · intro ss c hss fuel hf
    have hne : ss.map simpleServer.asServer ≠ [] := by
      simp only [ne_eq, List.map_eq_nil_iff]
      exact hss
    obtain ⟨f, rfl⟩ : ∃ f, fuel = f + 1 := ⟨fuel - 1, by omega⟩
    rw [findLive, slot_get? hne]
    show (if (slot (ss.map simpleServer.asServer) c).IsAlive = true
        then LoopResult.found c
        else findLive (ss.map simpleServer.asServer) (c + 1) f) = _
    have hmem := slot_mem hne c
    obtain ⟨s, -, heq⟩ := List.mem_map.mp hmem
    rw [if_pos (by rw [← heq]; rfl)]
  · intro lb fuel t lb' h
    exact (getNext_preserves h).1
  · intro lb fuel o tr lb' h
    obtain ⟨t, hg, -⟩ := serveProxy_inv h
    exact (getNext_preserves hg).1

/-- Witness for C9: a two-server pool of `simpleServer`s, scanned from
cursor 5, accepts immediately. -/
theorem c9_static_liveness_witness :
    (([⟨"a"⟩, ⟨"b"⟩] : List simpleServer) ≠ []) ∧ (1 ≤ 1) ∧
      findLive (([⟨"a"⟩, ⟨"b"⟩] : List simpleServer).map simpleServer.asServer)
        5 1 = .found 5 :=
  ⟨by decide, by decide,
    c9_static_liveness.2.1 [⟨"a"⟩, ⟨"b"⟩] 5 (by decide) 1 (by decide)⟩

/-- C10: initial selection offset. `NewLoadBalancer` stores the port and
server list unchanged and initializes the cursor to 0; hence on a fresh
balancer whose first server is alive, the first call returns the first
server of the configured list and leaves the cursor at 1. -/
theorem c10_initial_offset (p : String) (ss : List Server) :
    (NewLoadBalancer p ss).roundRobinCount = 0 ∧
    (NewLoadBalancer p ss).port = p ∧
    (NewLoadBalancer p ss).servers = ss ∧
    (∀ h : ss ≠ [], slot ss 0 = ss.get ⟨0, List.length_pos.mpr h⟩) ∧
    (ss ≠ [] → (slot ss 0).IsAlive = true → ∀ fuel, 1 ≤ fuel →
      getNextAvailableServer (NewLoadBalancer p ss) fuel =
        .ok (slot ss 0) ⟨p, 1, ss⟩) := by
  refine ⟨rfl, rfl, rfl, ?_, ?_⟩
  · intro h
    exact slot_lt_eq_get (List.length_pos.mpr h)
  · intro hne halive fuel hf
    have hfound : findLive ss 0 fuel = .found 0 := by
      obtain ⟨f, rfl⟩ : ∃ f, fuel = f + 1 := ⟨fuel - 1, by omega⟩
      rw [findLive, slot_get? hne]
      show (if (slot ss 0).IsAlive = true then LoopResult.found 0
          else findLive ss (0 + 1) f) = _
      rw [if_pos halive]
    exact @getNext_of_found (NewLoadBalancer p ss) fuel 0 hne hfound

/-- Witness for C10: fresh two-server balancer returns the first server. -/
theorem c10_initial_offset_witness :
    (([⟨"a", true⟩, ⟨"b", true⟩] : List Server) ≠ []) ∧
      ((slot [⟨"a", true⟩, ⟨"b", true⟩] 0).IsAlive = true) ∧ (1 ≤ 1) ∧
      getNextAvailableServer
          (NewLoadBalancer "p" [⟨"a", true⟩, ⟨"b", true⟩]) 1 =
        .ok (slot [⟨"a", true⟩, ⟨"b", true⟩] 0)
          ⟨"p", 1, [⟨"a", true⟩, ⟨"b", true⟩]⟩ :=
  ⟨by decide, by decide, by decide,
    (c10_initial_offset "p" [⟨"a", true⟩, ⟨"b", true⟩]).2.2.2.2
      (by decide) (by decide) 1 (by decide)⟩

/-- Each alive position `i` appears exactly once among the `n-1` alive
slots enumerated by `skipIdx`. -/
lemma count_skipIdx_range {n d i : Nat} (hn : 2 ≤ n) (hd : d < n)
    (hi : i < n) (hid : i ≠ d) :
    ((List.range (n - 1)).map (skipIdx d)).count i = 1 := by
  refine List.count_eq_one_of_mem
    (List.Nodup.map (skipIdx_inj d) (List.nodup_range _)) ?_
  refine List.mem_map.mpr ?_
  by_cases hcase : i < d
  · exact ⟨i, List.mem_range.mpr (by omega), by unfold skipIdx; rw [if_pos hcase]⟩
  · refine ⟨i - 1, List.mem_range.mpr (by omega), ?_⟩
    unfold skipIdx
    rw [if_neg (by omega)]
    omega

/-- In any window of `n-1` consecutive phases, each alive server of a
duplicate-free one-dead pool is chosen exactly once. -/
lemma window_count_one {servers : List Server} {d : Nat}
    (hn : 2 ≤ servers.length) (hd : d < servers.length) (hnd : servers.Nodup)
    {i : Nat} (hi : i < servers.length) (hid : i ≠ d) (s : Nat) :
    ((List.range (servers.length - 1)).map
        (fun k => slot servers (skipIdx d ((s + k) % (servers.length - 1))))).count
      (slot servers i) = 1 := by
  have ha : 0 < servers.length - 1 := by omega
  have hA : ((List.range (servers.length - 1)).map
      (fun k => slot servers (skipIdx d ((s + k) % (servers.length - 1))))).count
        (slot servers i) =
      (List.range (servers.length - 1)).countP
        ((fun x => x == slot servers i) ∘
          (fun k => slot servers (skipIdx d ((s + k) % (servers.length - 1))))) := by
    rw [List.count_eq_countP, List.countP_map]
  have hB := countP_range_mod_shift (servers.length - 1)
    (fun x => slot servers (skipIdx d x) == slot servers i) s
  have hpq : ∀ k ∈ List.range (servers.length - 1),
      ((fun k => slot servers (skipIdx d (k % (servers.length - 1))) ==
        slot servers i) k = true) ↔ ((fun k => skipIdx d k == i) k = true) := by
    intro k hk
    have hk' : k < servers.length - 1 := List.mem_range.mp hk
    show (slot servers (skipIdx d (k % (servers.length - 1))) ==
      slot servers i) = true ↔ (skipIdx d k == i) = true
    rw [Nat.mod_eq_of_lt hk', beq_iff_eq, beq_iff_eq]
    constructor
    · intro h
      exact slot_inj hnd (skipIdx_lt hd hk') hi h
    · intro h
      rw [h]
  have hC := List.countP_congr hpq
  have hD : (List.range (servers.length - 1)).countP (fun k => skipIdx d k == i) =
      ((List.range (servers.length - 1)).map (skipIdx d)).count i := by
    rw [List.count_eq_countP, List.countP_map]
    rfl
  exact hA.trans (hB.trans (hC.trans (hD.trans (count_skipIdx_range hn hd hi hid))))

/-- C3: dead-target skip. For a duplicate-free pool in which exactly the
slot `d` is not alive and the other `N-1` slots are alive: no call to
`getNextAvailableServer` on this pool ever returns the dead server; and a
run of any length on a fresh balancer never lists the dead server and, in
every window of `N-1` consecutive calls, returns each of the `N-1` alive
servers exactly once. -/
theorem c3_dead_target_skip (p : String) (servers : List Server) (d : Nat)
    (hn : 2 ≤ servers.length) (hd : d < servers.length) (hnd : servers.Nodup)
    (hdead : (slot servers d).IsAlive = false)
    (hal : ∀ i, i < servers.length → i ≠ d → (slot servers i).IsAlive = true)
    (M fuel : Nat) (hf : 2 ≤ fuel) :
    (∀ lb f2 t lb', lb.servers = servers →
      getNextAvailableServer lb f2 = .ok t lb' → t ≠ slot servers d) ∧
    ∃ chosen lbf,
      runCalls (NewLoadBalancer p servers) fuel M = some (chosen, lbf) ∧
      slot servers d ∉ chosen ∧
      (∀ s, s + (servers.length - 1) ≤ M → ∀ i, i < servers.length → i ≠ d →
        ((chosen.drop s).take (servers.length - 1)).count (slot servers i) = 1) := by
  have ha : 0 < servers.length - 1 := by omega
  constructor
  · intro lb f2 t lb' hserv hok heq
    have halv := getNext_alive hok
    rw [heq, hdead] at halv
    exact Bool.noConfusion halv
  · have hc0 : 0 % servers.length = skipIdx d 0 ∨
        (0 % servers.length = d ∧ (d + 1) % servers.length = skipIdx d 0) := by
      by_cases hd0 : 0 < d
      · left
        rw [Nat.zero_mod]
        unfold skipIdx
        rw [if_pos hd0]
      · right
        have hdz : d = 0 := by omega
        constructor
        · rw [Nat.zero_mod, hdz]
        · unfold skipIdx
          rw [if_neg (by omega), hdz]
          exact Nat.mod_eq_of_lt hn
    obtain ⟨cf, hrun, -⟩ := oneDead_run hn hd hdead hal hf p M 0 0 ha hc0
    have hchosen : (List.range M).map
        (fun j => slot servers (skipIdx d ((0 + j) % (servers.length - 1)))) =
        (List.range M).map
        (fun j => slot servers (skipIdx d (j % (servers.length - 1)))) :=
      List.map_congr_left (fun j _ => by rw [Nat.zero_add])
    rw [hchosen] at hrun
    refine ⟨(List.range M).map
      (fun j => slot servers (skipIdx d (j % (servers.length - 1)))),
      ⟨p, cf, servers⟩, hrun, ?_, ?_⟩
    · intro hmem
      obtain ⟨j, -, heqj⟩ := List.mem_map.mp hmem
      have hlt : skipIdx d (j % (servers.length - 1)) < servers.length :=
        skipIdx_lt hd (Nat.mod_lt _ ha)
      exact skipIdx_ne (slot_inj hnd hlt hd heqj)
    · intro s hs i hi hid
      have hwin : (((List.range M).map
          (fun j => slot servers (skipIdx d (j % (servers.length - 1))))).drop s).take
            (servers.length - 1) =
          (List.range (servers.length - 1)).map
            (fun k => slot servers (skipIdx d ((s + k) % (servers.length - 1)))) := by
        rw [← List.map_drop, ← List.map_take, range_drop_take hs, List.map_map]
        rfl
      rw [hwin]
      exact window_count_one hn hd hnd hi hid s

/-- Witness for C3: the spec's end-to-end scenario — pool [A, B, C] with C
dead, four calls, windows of two calls containing A and B once each. -/
theorem c3_dead_target_skip_witness :
    (2 ≤ ([⟨"A", true⟩, ⟨"B", true⟩, ⟨"C", false⟩] : List Server).length ∧
      2 < ([⟨"A", true⟩, ⟨"B", true⟩, ⟨"C", false⟩] : List Server).length ∧
      ([⟨"A", true⟩, ⟨"B", true⟩, ⟨"C", false⟩] : List Server).Nodup ∧
      (slot [⟨"A", true⟩, ⟨"B", true⟩, ⟨"C", false⟩] 2).IsAlive = false ∧
      (∀ i, i < ([⟨"A", true⟩, ⟨"B", true⟩, ⟨"C", false⟩] : List Server).length →
        i ≠ 2 → (slot [⟨"A", true⟩, ⟨"B", true⟩, ⟨"C", false⟩] i).IsAlive = true) ∧
      2 ≤ 2) ∧
    ((∀ lb f2 t lb',
        lb.servers = ([⟨"A", true⟩, ⟨"B", true⟩, ⟨"C", false⟩] : List Server) →
        getNextAvailableServer lb f2 = .ok t lb' →
        t ≠ slot [⟨"A", true⟩, ⟨"B", true⟩, ⟨"C", false⟩] 2) ∧
      ∃ chosen lbf,
        runCalls (NewLoadBalancer "p" [⟨"A", true⟩, ⟨"B", true⟩, ⟨"C", false⟩])
            2 4 = some (chosen, lbf) ∧
        slot [⟨"A", true⟩, ⟨"B", true⟩, ⟨"C", false⟩] 2 ∉ chosen ∧
        (∀ s, s + (([⟨"A", true⟩, ⟨"B", true⟩, ⟨"C", false⟩] :
            List Server).length - 1) ≤ 4 →
          ∀ i, i < ([⟨"A", true⟩, ⟨"B", true⟩, ⟨"C", false⟩] :
            List Server).length → i ≠ 2 →
          ((chosen.drop s).take (([⟨"A", true⟩, ⟨"B", true⟩, ⟨"C", false⟩] :
              List Server).length - 1)).count
            (slot [⟨"A", true⟩, ⟨"B", true⟩, ⟨"C", false⟩] i) = 1)) :=
  ⟨⟨by decide, by decide, by decide, by decide, by decide, by decide⟩,
    c3_dead_target_skip "p" [⟨"A", true⟩, ⟨"B", true⟩, ⟨"C", false⟩] 2
      (by decide) (by decide) (by decide) (by decide) (by decide) 4 2 (by decide)⟩
